import Mathlib

set_option maxHeartbeats 1000000

/-!
Verification of the invoice claim/process/deliver pipeline implemented in
`tools/print.py`.  The work-queue table `dbo.Kthimi_InvoiceStatus` is modelled
as a list of rows; the SQL statements of `claim_invoices`, `finalize_invoice`
and `revert_invoice` are modelled as pure state transformers on that list.
Money math (`D`, `q2`, `q4`, `get_invoice_products`, `map_data_for_template`)
is modelled over `ℚ` (Python `Decimal` with exact arithmetic and explicit
half-up rounding at the output boundary).  The e-mail retry loop, the recipient
filtering, the base64url artifact encoding and the raw printer streaming are
modelled as executable functions over lists.
-/

namespace KthimiPrint

/-- One row of `dbo.Kthimi_InvoiceStatus`: `Printed` is the job state
(0 = Pending, 1 = Printed, 2 = Processing) and `Status` is the eligibility
flag (1 = eligible). -/
structure Job where
  ID_Fatura : Nat
  Printed : Nat
  Status : Nat
deriving DecidableEq, Repr

/-- Row predicate of the claim UPDATE: `WHERE Printed = 0 AND Status = 1`. -/
def claimEligible (j : Job) : Bool := j.Printed == 0 && j.Status == 1

/-- `UPDATE TOP (batch_size) dbo.Kthimi_InvoiceStatus SET Printed = 2
OUTPUT inserted.ID_Fatura WHERE Printed = 0 AND Status = 1`, modelled as
updating the first (up to) `batch_size` eligible rows in table order.
Returns the OUTPUT ids together with the updated table. -/
def claimAux : Nat → List Job → List Nat × List Job
  | _, [] => ([], [])
  | 0, q => ([], q)
  | n + 1, j :: rest =>
    if claimEligible j then
      let p := claimAux n rest
      (j.ID_Fatura :: p.1, { j with Printed := 2 } :: p.2)
    else
      let p := claimAux (n + 1) rest
      (p.1, j :: p.2)

/-- `claim_invoices(batch_size)` of `tools/print.py`. -/
def claim_invoices (batch_size : Nat) (q : List Job) : List Nat × List Job :=
  claimAux batch_size q

/-- `finalize_invoice`: `UPDATE ... SET Printed = 1 WHERE ID_Fatura = ? AND
Printed = 2`. -/
def finalize_invoice (id_fatura : Nat) (q : List Job) : List Job :=
  q.map fun j =>
    if j.ID_Fatura == id_fatura && j.Printed == 2 then { j with Printed := 1 } else j

/-- `revert_invoice`: `UPDATE ... SET Printed = 0 WHERE ID_Fatura = ? AND
Printed = 2`. -/
def revert_invoice (id_fatura : Nat) (q : List Job) : List Job :=
  q.map fun j =>
    if j.ID_Fatura == id_fatura && j.Printed == 2 then { j with Printed := 0 } else j

lemma claimAux_fst_subset (n : Nat) (q : List Job) :
    ∀ i ∈ (claimAux n q).1, ∃ j ∈ q, j.ID_Fatura = i ∧ j.Printed = 0 ∧ j.Status = 1 := by
  induction q generalizing n with
  | nil => simp [claimAux]
  | cons j rest ih =>
    cases n with
    | zero => simp [claimAux]
    | succ n =>
      by_cases h : claimEligible j
      · intro i hi
        simp only [claimAux, h, if_true] at hi
        rcases List.mem_cons.mp hi with hi | hi
        · refine ⟨j, List.mem_cons_self _ _, hi.symm, ?_⟩
          simpa [claimEligible] using h
        · obtain ⟨j', hj', hid, hrest⟩ := ih n i hi
          exact ⟨j', List.mem_cons_of_mem _ hj', hid, hrest⟩
      · intro i hi
        simp only [claimAux, h, if_false] at hi
        obtain ⟨j', hj', hid, hrest⟩ := ih (n + 1) i hi
        exact ⟨j', List.mem_cons_of_mem _ hj', hid, hrest⟩

lemma claimAux_fst_length (n : Nat) (q : List Job) : (claimAux n q).1.length ≤ n := by
  induction q generalizing n with
  | nil => simp [claimAux]
  | cons j rest ih =>
    cases n with
    | zero => simp [claimAux]
    | succ n =>
      by_cases h : claimEligible j
      · simpa [claimAux, h] using ih n
      · calc (claimAux (n + 1) (j :: rest)).1.length
            = (claimAux (n + 1) rest).1.length := by simp [claimAux, h]
          _ ≤ n + 1 := ih (n + 1)

lemma claimAux_snd_eq (n : Nat) (q : List Job)
    (hnd : (q.map Job.ID_Fatura).Nodup) :
    (claimAux n q).2 =
      q.map fun j =>
        if j.ID_Fatura ∈ (claimAux n q).1 then { j with Printed := 2 } else j := by
  induction q generalizing n with
  | nil => simp [claimAux]
  | cons j rest ih =>
    have hnd' : (rest.map Job.ID_Fatura).Nodup := (List.nodup_cons.mp hnd).2
    have hj : j.ID_Fatura ∉ rest.map Job.ID_Fatura := (List.nodup_cons.mp hnd).1
    cases n with
    | zero =>
      simp [claimAux]
    | succ n =>
      by_cases h : claimEligible j
      · have hids : (claimAux (n + 1) (j :: rest)).1 = j.ID_Fatura :: (claimAux n rest).1 := by
          simp [claimAux, h]
        have hsnd : (claimAux (n + 1) (j :: rest)).2 =
            { j with Printed := 2 } :: (claimAux n rest).2 := by
          simp [claimAux, h]
        rw [hids, hsnd, List.map_cons, if_pos (List.mem_cons_self _ _), ih n hnd']
        congr 1
        refine List.map_congr_left fun r hr => ?_
        have hne : r.ID_Fatura ≠ j.ID_Fatura := by
          intro he
          exact hj (he ▸ List.mem_map_of_mem Job.ID_Fatura hr)
        simp [List.mem_cons, hne]
      · have hnot : j.ID_Fatura ∉ (claimAux (n + 1) rest).1 := by
          intro hmem
          obtain ⟨j', hj', hid, _⟩ := claimAux_fst_subset (n + 1) rest _ hmem
          exact hj (hid ▸ List.mem_map_of_mem Job.ID_Fatura hj')
        have hids : (claimAux (n + 1) (j :: rest)).1 = (claimAux (n + 1) rest).1 := by
          simp [claimAux, h]
        have hsnd : (claimAux (n + 1) (j :: rest)).2 = j :: (claimAux (n + 1) rest).2 := by
          simp [claimAux, h]
        rw [hids, hsnd, List.map_cons, if_neg hnot, ih (n + 1) hnd']

/-- C1: `claim_invoices(batch_size)` returns ids of at most `batch_size` rows
that were Pending (`Printed = 0`) and eligible (`Status = 1`) — so a job
already Processing or Printed is never returned — and transitions exactly the
returned rows to Processing (`Printed = 2`); consequently a second claim run
against the resulting queue returns an id set disjoint from the first. -/
theorem claim_invoices_correct (n m : Nat) (q : List Job)
    (hnd : (q.map Job.ID_Fatura).Nodup) :
    (∀ i ∈ (claim_invoices n q).1,
        ∃ j ∈ q, j.ID_Fatura = i ∧ j.Printed = 0 ∧ j.Status = 1) ∧
    (claim_invoices n q).1.length ≤ n ∧
    (claim_invoices n q).2 =
      (q.map fun j =>
        if j.ID_Fatura ∈ (claim_invoices n q).1 then { j with Printed := 2 } else j) ∧
    (∀ i ∈ (claim_invoices n q).1,
        i ∉ (claim_invoices m (claim_invoices n q).2).1) := by
  refine ⟨claimAux_fst_subset n q, claimAux_fst_length n q, claimAux_snd_eq n q hnd, ?_⟩
  intro i hi hi2
  obtain ⟨j', hj', hid, hpend, _⟩ :=
    claimAux_fst_subset m (claim_invoices n q).2 i hi2
  rw [claim_invoices, claimAux_snd_eq n q hnd] at hj'
  obtain ⟨j₀, hj₀, hfj⟩ := List.mem_map.mp hj'
  by_cases hc : j₀.ID_Fatura ∈ (claimAux n q).1
  · rw [if_pos hc] at hfj
    rw [← hfj] at hpend
    simp at hpend
  · rw [if_neg hc] at hfj
    rw [hfj] at hc
    exact hc (hid ▸ hi)

/-- Concrete queue used to instantiate the work-queue theorems. -/
def qDemo : List Job := [⟨1, 0, 1⟩, ⟨2, 2, 1⟩, ⟨3, 0, 0⟩, ⟨4, 0, 1⟩]

/-- Witness for C1 at a concrete queue: ids 1 and 4 are claimed (2 is already
Processing, 3 is ineligible), and a second claim returns a disjoint set. -/
theorem claim_invoices_correct_witness :
    ((qDemo.map Job.ID_Fatura).Nodup) ∧
    ((∀ i ∈ (claim_invoices 2 qDemo).1,
        ∃ j ∈ qDemo, j.ID_Fatura = i ∧ j.Printed = 0 ∧ j.Status = 1) ∧
     (claim_invoices 2 qDemo).1.length ≤ 2 ∧
     (claim_invoices 2 qDemo).2 =
       (qDemo.map fun j =>
         if j.ID_Fatura ∈ (claim_invoices 2 qDemo).1 then { j with Printed := 2 } else j) ∧
     (∀ i ∈ (claim_invoices 2 qDemo).1,
         i ∉ (claim_invoices 2 (claim_invoices 2 qDemo).2).1)) :=
  ⟨by decide, claim_invoices_correct 2 2 qDemo (by decide)⟩

/-- C3: `finalize_invoice` rewrites a row to Printed exactly when it currently
is that id in state Processing, `revert_invoice` rewrites it to Pending exactly
when it currently is that id in state Processing; every other row (Pending,
already Printed, or a different id) is left unchanged, and repeating either
operation is a no-op. -/
theorem finalize_revert_correct (idf : Nat) (q : List Job) :
    List.Forall₂ (fun j j' =>
        (j.ID_Fatura = idf ∧ j.Printed = 2 → j' = { j with Printed := 1 }) ∧
        (¬(j.ID_Fatura = idf ∧ j.Printed = 2) → j' = j)) q (finalize_invoice idf q) ∧
    List.Forall₂ (fun j j' =>
        (j.ID_Fatura = idf ∧ j.Printed = 2 → j' = { j with Printed := 0 }) ∧
        (¬(j.ID_Fatura = idf ∧ j.Printed = 2) → j' = j)) q (revert_invoice idf q) ∧
    finalize_invoice idf (finalize_invoice idf q) = finalize_invoice idf q ∧
    revert_invoice idf (revert_invoice idf q) = revert_invoice idf q := by
  refine ⟨?_, ?_, ?_, ?_⟩
  · rw [finalize_invoice, List.forall₂_map_right_iff, List.forall₂_same]
    intro j _
    constructor
    · intro ⟨h1, h2⟩
      simp [h1, h2]
    · intro hn
      rw [if_neg]
      simp only [Bool.and_eq_true, beq_iff_eq]
      exact fun hc => hn hc
  · rw [revert_invoice, List.forall₂_map_right_iff, List.forall₂_same]
    intro j _
    constructor
    · intro ⟨h1, h2⟩
      simp [h1, h2]
    · intro hn
      rw [if_neg]
      simp only [Bool.and_eq_true, beq_iff_eq]
      exact fun hc => hn hc
  · simp only [finalize_invoice, List.map_map]
    refine List.map_congr_left fun j _ => ?_
    by_cases h : j.ID_Fatura == idf && j.Printed == 2
    · simp [Function.comp, h]
    · simp [Function.comp, h]
  · simp only [revert_invoice, List.map_map]
    refine List.map_congr_left fun j _ => ?_
    by_cases h : j.ID_Fatura == idf && j.Printed == 2
    · simp [Function.comp, h]
    · simp [Function.comp, h]

/-- `q2`: `Decimal.quantize('0.01', ROUND_HALF_UP)` — two fractional digits,
ties rounded away from zero. -/
def q2 (x : ℚ) : ℚ :=
  if 0 ≤ x then (⌊x * 100 + 1 / 2⌋ : ℚ) / 100 else -((⌊(-x) * 100 + 1 / 2⌋ : ℚ) / 100)

/-- `q4`: `Decimal.quantize('0.0001', ROUND_HALF_UP)` — four fractional
digits, ties rounded away from zero. -/
def q4 (x : ℚ) : ℚ :=
  if 0 ≤ x then (⌊x * 10000 + 1 / 2⌋ : ℚ) / 10000
  else -((⌊(-x) * 10000 + 1 / 2⌋ : ℚ) / 10000)

/-- Numeric fields of one `Kthimi_ProduktTransfers` row as read by
`get_invoice_products`: quantity, unit price, tax-rate percent, discount
percent. -/
structure ProductRow where
  Sasia : ℚ
  CmimiDokument : ℚ
  TaxRate : ℚ
  Zbritje : ℚ
deriving DecidableEq, Repr

/-- The unrounded intermediate values computed per row inside
`get_invoice_products`. -/
structure LineCalc where
  discount_amount : ℚ
  price_after_discount : ℚ
  line_total : ℚ
  tax_amount : ℚ
  grand_total : ℚ
deriving DecidableEq, Repr

/-- Per-row decimal math of `get_invoice_products`, kept exact (Python
`Decimal` at precision 28 on these operands is exact): no rounding happens
here. -/
def computeLine (r : ProductRow) : LineCalc :=
  let discount_amount := r.CmimiDokument * (r.Zbritje / 100)
  let price_after_discount := r.CmimiDokument - discount_amount
  let line_total := r.Sasia * price_after_discount
  let tax_amount := line_total * (r.TaxRate / 100)
  { discount_amount := discount_amount
    price_after_discount := price_after_discount
    line_total := line_total
    tax_amount := tax_amount
    grand_total := line_total + tax_amount }

/-- The numeric content of one item dict emitted by `get_invoice_products`:
values are rounded exactly once, at this output boundary (`line_total` holds
the gross amount, as in the source). -/
structure LineOut where
  Sasia : ℚ
  CmimiDokument : ℚ
  TaxRate : ℚ
  Zbritje : ℚ
  tax_amount : ℚ
  line_total : ℚ
deriving DecidableEq, Repr

/-- One output item of `get_invoice_products`. -/
def lineOut (r : ProductRow) : LineOut :=
  { Sasia := q2 r.Sasia
    CmimiDokument := q4 r.CmimiDokument
    TaxRate := q2 r.TaxRate
    Zbritje := q2 r.Zbritje
    tax_amount := q4 (computeLine r).tax_amount
    line_total := q4 (computeLine r).grand_total }

/-- `get_invoice_products`: maps the fetched rows to rounded output items. -/
def get_invoice_products (rows : List ProductRow) : List LineOut :=
  rows.map lineOut

/-- The totals block of `map_data_for_template`. -/
structure Totals where
  total_quantity : ℚ
  subtotal : ℚ
  total_tax : ℚ
  grand_total : ℚ
deriving DecidableEq, Repr

/-- Aggregation of `map_data_for_template` over the already-rounded items:
`subtotal = Σ (line_total - tax_amount)`, `total_tax = Σ tax_amount`,
`grand_total = subtotal + total_tax`, each then rounded for output. -/
def map_data_for_template (items : List LineOut) : Totals :=
  let total_quantity := (items.map fun i => i.Sasia).sum
  let subtotal := (items.map fun i => i.line_total - i.tax_amount).sum
  let total_tax := (items.map fun i => i.tax_amount).sum
  let grand_total := subtotal + total_tax
  { total_quantity := q2 total_quantity
    subtotal := q4 subtotal
    total_tax := q4 total_tax
    grand_total := q4 grand_total }

lemma q4_intCast_div (k : ℤ) : q4 ((k : ℚ) / 10000) = (k : ℚ) / 10000 := by
  unfold q4
  rcases le_or_lt 0 (k : ℚ) with hk | hk
  · rw [if_pos (div_nonneg hk (by norm_num))]
    rw [div_mul_cancel₀ _ (by norm_num : (10000 : ℚ) ≠ 0)]
    rw [Int.floor_int_add]
    norm_num
  · rw [if_neg (not_le.mpr (div_neg_of_neg_of_pos hk (by norm_num)))]
    have h1 : -((k : ℚ) / 10000) * 10000 + 1 / 2 = ((-k : ℤ) : ℚ) + 1 / 2 := by
      push_cast
      ring
    rw [h1, Int.floor_int_add]
    norm_num
    ring

/-- C4: the per-line derived values follow the spec formulas in exact decimal
arithmetic, rounding half-up to 4 digits only at the output boundary, and the
scenario item {quantity 3, price 10.00, discount 10%, tax 20%} yields net unit
price 9.00, line net 27.00, tax amount 5.4000 and line gross 32.4000. -/
theorem get_invoice_products_line_math (r : ProductRow) :
    (computeLine r).discount_amount = r.CmimiDokument * (r.Zbritje / 100) ∧
    (computeLine r).price_after_discount =
      r.CmimiDokument - (computeLine r).discount_amount ∧
    (computeLine r).line_total = r.Sasia * (computeLine r).price_after_discount ∧
    (computeLine r).tax_amount = (computeLine r).line_total * (r.TaxRate / 100) ∧
    (computeLine r).grand_total = (computeLine r).line_total + (computeLine r).tax_amount ∧
    (lineOut r).tax_amount = q4 (computeLine r).tax_amount ∧
    (lineOut r).line_total = q4 (computeLine r).grand_total ∧
    (computeLine ⟨3, 10, 20, 10⟩).price_after_discount = 9 ∧
    (computeLine ⟨3, 10, 20, 10⟩).line_total = 27 ∧
    (lineOut ⟨3, 10, 20, 10⟩).tax_amount = 27 / 5 ∧
    (lineOut ⟨3, 10, 20, 10⟩).line_total = 162 / 5 := by
  refine ⟨rfl, rfl, rfl, rfl, rfl, rfl, rfl, by norm_num [computeLine],
    by norm_num [computeLine], ?_, ?_⟩
  · have h : (lineOut ⟨3, 10, 20, 10⟩).tax_amount = q4 (((54000 : ℤ) : ℚ) / 10000) := by
      norm_num [lineOut, computeLine]
    rw [h, q4_intCast_div]
    norm_num
  · have h : (lineOut ⟨3, 10, 20, 10⟩).line_total = q4 (((324000 : ℤ) : ℚ) / 10000) := by
      norm_num [lineOut, computeLine]
    rw [h, q4_intCast_div]
    norm_num

lemma q4_form (x : ℚ) : ∃ k : ℤ, q4 x = (k : ℚ) / 10000 := by
  unfold q4
  split
  · exact ⟨_, rfl⟩
  · exact ⟨-⌊(-x) * 10000 + 1 / 2⌋, by push_cast; ring⟩

lemma sum_div_form (l : List ℚ) (h : ∀ x ∈ l, ∃ k : ℤ, x = (k : ℚ) / 10000) :
    ∃ K : ℤ, l.sum = (K : ℚ) / 10000 := by
  induction l with
  | nil => exact ⟨0, by simp⟩
  | cons a t ih =>
    obtain ⟨k, hk⟩ := h a (List.mem_cons_self _ _)
    obtain ⟨K, hK⟩ := ih fun x hx => h x (List.mem_cons_of_mem _ hx)
    refine ⟨k + K, ?_⟩
    rw [List.sum_cons, hk, hK]
    push_cast
    ring

/-- C5: over items produced by `get_invoice_products` (i.e. already rounded to
4 fractional digits per line), the totals of `map_data_for_template` satisfy
`grand_total = subtotal + total_tax` exactly at the rounded precision, for any
non-empty row list. -/
theorem map_data_for_template_no_drift (rows : List ProductRow) (_hne : rows ≠ []) :
    (map_data_for_template (get_invoice_products rows)).grand_total =
      (map_data_for_template (get_invoice_products rows)).subtotal +
        (map_data_for_template (get_invoice_products rows)).total_tax := by
  have hsub : ∃ K : ℤ,
      ((get_invoice_products rows).map fun i => i.line_total - i.tax_amount).sum =
        (K : ℚ) / 10000 := by
    apply sum_div_form
    intro x hx
    obtain ⟨i, hi, rfl⟩ := List.mem_map.mp hx
    obtain ⟨r, _, rfl⟩ := List.mem_map.mp hi
    obtain ⟨a, ha⟩ := q4_form (computeLine r).grand_total
    obtain ⟨b, hb⟩ := q4_form (computeLine r).tax_amount
    refine ⟨a - b, ?_⟩
    rw [lineOut]
    simp only
    rw [ha, hb]
    push_cast
    ring
  have htax : ∃ K : ℤ,
      ((get_invoice_products rows).map fun i => i.tax_amount).sum = (K : ℚ) / 10000 := by
    apply sum_div_form
    intro x hx
    obtain ⟨i, hi, rfl⟩ := List.mem_map.mp hx
    obtain ⟨r, _, rfl⟩ := List.mem_map.mp hi
    obtain ⟨b, hb⟩ := q4_form (computeLine r).tax_amount
    exact ⟨b, by rw [lineOut]; simpa using hb⟩
  obtain ⟨A, hA⟩ := hsub
  obtain ⟨B, hB⟩ := htax
  simp only [map_data_for_template]
  rw [hA, hB]
  have hAB : (A : ℚ) / 10000 + (B : ℚ) / 10000 = ((A + B : ℤ) : ℚ) / 10000 := by
    push_cast
    ring
  rw [hAB, q4_intCast_div, q4_intCast_div, q4_intCast_div]
  push_cast
  ring

/-- Witness for C5 at the one-row scenario list. -/
theorem map_data_for_template_no_drift_witness :
    ([(⟨3, 10, 20, 10⟩ : ProductRow)] ≠ []) ∧
    (map_data_for_template (get_invoice_products [⟨3, 10, 20, 10⟩])).grand_total =
      (map_data_for_template (get_invoice_products [⟨3, 10, 20, 10⟩])).subtotal +
        (map_data_for_template (get_invoice_products [⟨3, 10, 20, 10⟩])).total_tax :=
  ⟨by decide, map_data_for_template_no_drift [⟨3, 10, 20, 10⟩] (by decide)⟩

/-- Python strings are modelled as character lists. -/
abbrev Str := List Char

/-- Character class `[A-Za-z0-9._%+\-]` of the local part of `EMAIL_REGEX`,
plus the apostrophe (char 39) that the class also contains. -/
def localChar (c : Char) : Bool :=
  c.isAlpha || c.isDigit || c == '.' || c == '_' || c == '%' || c == '+' || c == '-' ||
    c == Char.ofNat 39

/-- Character class `[A-Za-z0-9.\-]` of the domain part of `EMAIL_REGEX`. -/
def domChar (c : Char) : Bool :=
  c.isAlpha || c.isDigit || c == '.' || c == '-'

/-- Full match against `EMAIL_REGEX`: exactly one `@` separating a non-empty
local part over its class from a domain that splits at its last dot into a
non-empty prefix over the domain class and an alphabetic top-level label of
length at least two. -/
def emailOk (s : Str) : Bool :=
  match s.splitOn '@' with
  | [loc, dom] =>
    let ds := dom.splitOn '.'
    let z := ds.getLastD []
    !loc.isEmpty && loc.all localChar && dom.all domChar && decide (2 ≤ ds.length) &&
      decide (2 ≤ z.length) && z.all Char.isAlpha && decide (z.length + 2 ≤ dom.length)
  | _ => false

/-- Python `str.strip()`: drop leading and trailing whitespace. -/
def pyStrip (s : Str) : Str :=
  ((s.dropWhile Char.isWhitespace).reverse.dropWhile Char.isWhitespace).reverse

/-- Python `str.lower()` on the characters we deal with. -/
def strLower (s : Str) : Str := s.map Char.toLower

/-- One iteration of the accumulation loop of `_parse_email_list`: keep the
item if it is non-empty, matches `EMAIL_REGEX` and its lowercase key was not
seen before. -/
def parseStep (acc : List Str × List Str) (it : Str) : List Str × List Str :=
  let key := strLower it
  if !it.isEmpty && emailOk it && !acc.2.contains key then (acc.1 ++ [it], key :: acc.2)
  else acc

/-- `_parse_email_list(raw)`: split the raw field on `;`/`,`, strip each item,
then keep items that are non-empty, match `EMAIL_REGEX` and are not
case-insensitive duplicates of an earlier kept item. -/
def parse_email_list (raw : Option Str) : List Str :=
  match raw with
  | none => []
  | some r =>
    if r.isEmpty then []
    else
      let items := (List.splitOnP (fun c => c == ';' || c == ',') r).map pyStrip
      (items.foldl parseStep ([], [])).1

/-- Outcome of one `send_email_with_attachment` call: normal return, the
`ValueError` raised for an empty filtered "to" list, or the re-raised SMTP
error of the last attempt. -/
inductive SendOutcome
  | ok
  | noRecipient
  | exhausted
deriving DecidableEq, Repr

/-- Observable behaviour of one `send_email_with_attachment` call. -/
structure SendTrace where
  to_list : List Str
  cc_list : List Str
  attempts : Nat
  sleeps : List ℚ
  result : SendOutcome
deriving DecidableEq, Repr

/-- The retry loop `for attempt in range(1, max_retries + 1)`, with `rem`
iterations left and the current iteration numbered `attempt`; `deliver i`
says whether the SMTP transaction of attempt `i` succeeds.  Returns how many
attempts ran, the sleeps executed between them
(`base_delay * 2^(attempt - 1) + jitter attempt`), and whether delivery
succeeded (`false` means the last error was re-raised). -/
def sendLoop (deliver : Nat → Bool) (base_delay : ℚ) (jitter : Nat → ℚ) :
    Nat → Nat → Nat × List ℚ × Bool
  | _, 0 => (0, [], true)
  | attempt, 1 => (1, [], deliver attempt)
  | attempt, rem + 2 =>
    if deliver attempt then (1, [], true)
    else
      let p := sendLoop deliver base_delay jitter (attempt + 1) (rem + 1)
      (p.1 + 1, (base_delay * 2 ^ (attempt - 1) + jitter attempt) :: p.2.1, p.2.2)

/-- `send_email_with_attachment`: filter both recipient lists through
`EMAIL_REGEX`, raise `ValueError` when the filtered "to" list is empty, then
run the retry loop starting at attempt 1. -/
def send_email_with_attachment (receiver_emails cc_emails : List Str)
    (deliver : Nat → Bool) (max_retries : Nat) (base_delay : ℚ) (jitter : Nat → ℚ) :
    SendTrace :=
  let to_list := receiver_emails.filter emailOk
  let cc_list := cc_emails.filter emailOk
  if to_list.isEmpty then
    { to_list := to_list, cc_list := cc_list, attempts := 0, sleeps := [],
      result := .noRecipient }
  else
    let p := sendLoop deliver base_delay jitter 1 max_retries
    { to_list := to_list, cc_list := cc_list, attempts := p.1, sleeps := p.2.1,
      result := if p.2.2 then .ok else .exhausted }

lemma sendLoop_all_fail (deliver : Nat → Bool) (base_delay : ℚ) (jitter : Nat → ℚ)
    (hfail : ∀ i, deliver i = false) :
    ∀ rem attempt, 1 ≤ rem →
      sendLoop deliver base_delay jitter attempt rem =
        (rem,
          (List.range (rem - 1)).map
            (fun i => base_delay * 2 ^ (attempt + i - 1) + jitter (attempt + i)),
          false) := by
  intro rem
  induction rem with
  | zero => omega
  | succ rem ih =>
    intro attempt _
    cases rem with
    | zero => simp [sendLoop, hfail]
    | succ rem =>
      rw [sendLoop, hfail, if_neg (by simp)]
      rw [ih (attempt + 1) (by omega)]
      refine congrArg₂ Prod.mk (by omega) (congrArg₂ Prod.mk ?_ rfl)
      simp only [Nat.add_sub_cancel, List.range_succ_eq_map, List.map_cons, List.map_map]
      refine congrArg₂ List.cons (by norm_num) ?_
      refine List.map_congr_left fun i _ => ?_
      simp only [Function.comp]
      have e1 : attempt + 1 + i = attempt + Nat.succ i := by omega
      rw [e1]

lemma sendLoop_first_success (deliver : Nat → Bool) (base_delay : ℚ) (jitter : Nat → ℚ)
    (k : Nat) (hk : deliver k = true) (hbefore : ∀ i, i < k → deliver i = false) :
    ∀ rem attempt, attempt ≤ k → k < attempt + rem →
      (sendLoop deliver base_delay jitter attempt rem).1 = k + 1 - attempt ∧
      (sendLoop deliver base_delay jitter attempt rem).2.2 = true := by
  intro rem
  induction rem with
  | zero => omega
  | succ rem ih =>
    intro attempt h1 h2
    cases rem with
    | zero =>
      have hek : attempt = k := by omega
      subst hek
      rw [sendLoop]
      exact ⟨by simp, hk⟩
    | succ rem =>
      by_cases he : attempt = k
      · subst he
        rw [sendLoop, if_pos hk]
        exact ⟨by simp, rfl⟩
      · have hlt : attempt < k := by omega
        rw [sendLoop, hbefore attempt hlt, if_neg (by simp)]
        have := ih (attempt + 1) (by omega) (by omega)
        simp only
        refine ⟨?_, this.2⟩
        rw [this.1]
        omega

lemma sendLoop_false_iff (deliver : Nat → Bool) (base_delay : ℚ) (jitter : Nat → ℚ) :
    ∀ rem attempt,
      ((sendLoop deliver base_delay jitter attempt rem).2.2 = false ↔
        (1 ≤ rem ∧ ∀ i, attempt ≤ i → i < attempt + rem → deliver i = false)) := by
  intro rem
  induction rem with
  | zero => simp [sendLoop]
  | succ rem ih =>
    intro attempt
    cases rem with
    | zero =>
      simp only [sendLoop]
      constructor
      · intro h
        refine ⟨by omega, fun i hi1 hi2 => ?_⟩
        have : i = attempt := by omega
        rw [this]
        exact h
      · intro ⟨_, h⟩
        exact h attempt (le_refl _) (by omega)
    | succ rem =>
      by_cases hd : deliver attempt
      · rw [sendLoop, if_pos hd]
        simp only
        constructor
        · intro h
          exact absurd h (by simp)
        · intro ⟨_, h⟩
          rw [h attempt (le_refl _) (by omega)] at hd
          exact absurd hd (by simp)
      · rw [sendLoop, if_neg hd]
        simp only
        rw [ih (attempt + 1)]
        constructor
        · intro ⟨_, h⟩
          refine ⟨by omega, fun i hi1 hi2 => ?_⟩
          rcases Nat.eq_or_lt_of_le hi1 with he | hlt
          · rw [← he]
            simpa using hd
          · exact h i hlt (by omega)
        · intro ⟨_, h⟩
          exact ⟨by omega, fun i hi1 hi2 => h i (by omega) (by omega)⟩

/-- The retry/backoff contract of `send_email_with_attachment` for a given
call: it fails permanently exactly when the regex-filtered "to" list is empty
(with zero attempts, before any delivery) or when all `max_retries` attempts
fail; an always-failing delivery yields exactly `max_retries` attempts with
the doubling-plus-jitter sleeps between them; a delivery first succeeding on
attempt `k ≤ max_retries` yields exactly `k` attempts and success. -/
def SendRetryContract (receiver_emails cc_emails : List Str) (deliver : Nat → Bool)
    (max_retries : Nat) (base_delay : ℚ) (jitter : Nat → ℚ) : Prop :=
  let t := send_email_with_attachment receiver_emails cc_emails deliver max_retries
    base_delay jitter
  (t.result = .noRecipient ↔ receiver_emails.filter emailOk = []) ∧
  (receiver_emails.filter emailOk = [] → t.attempts = 0 ∧ t.sleeps = []) ∧
  (t.result = .exhausted ↔
    receiver_emails.filter emailOk ≠ [] ∧ ∀ i, 1 ≤ i → i ≤ max_retries → deliver i = false) ∧
  ((∀ i, deliver i = false) → receiver_emails.filter emailOk ≠ [] →
    t.attempts = max_retries ∧
    t.sleeps = (List.range (max_retries - 1)).map
      (fun i => base_delay * 2 ^ i + jitter (i + 1)) ∧
    t.result = .exhausted) ∧
  (∀ k, 1 ≤ k → k ≤ max_retries → deliver k = true → (∀ i, i < k → deliver i = false) →
    receiver_emails.filter emailOk ≠ [] → t.attempts = k ∧ t.result = .ok)

/-- C6 (amended with `1 ≤ max_retries`): the notifier's retry contract holds
for every call with at least one permitted attempt. -/
theorem send_email_retry_contract (receiver_emails cc_emails : List Str)
    (deliver : Nat → Bool) (max_retries : Nat) (base_delay : ℚ) (jitter : Nat → ℚ)
    (hmr : 1 ≤ max_retries) :
    SendRetryContract receiver_emails cc_emails deliver max_retries base_delay jitter := by
  unfold SendRetryContract send_email_with_attachment
  by_cases hto : receiver_emails.filter emailOk = []
  · rw [if_pos (by simp [hto])]
    refine ⟨by simp [hto], fun _ => ⟨rfl, rfl⟩, ?_, ?_, ?_⟩
    · simp [hto]
    · intro _ hne
      exact absurd hto hne
    · intro k _ _ _ _ hne
      exact absurd hto hne
  · rw [if_neg (by simpa [List.isEmpty_iff] using hto)]
    simp only
    refine ⟨?_, ?_, ?_, ?_, ?_⟩
    · constructor
      · intro h
        by_cases hb : (sendLoop deliver base_delay jitter 1 max_retries).2.2 <;>
          simp [hb] at h
      · intro h
        exact absurd h hto
    · intro h
      exact absurd h hto
    · constructor
      · intro h
        have hb : (sendLoop deliver base_delay jitter 1 max_retries).2.2 = false := by
          by_cases hb : (sendLoop deliver base_delay jitter 1 max_retries).2.2 <;>
            simp [hb] at h ⊢
        rw [sendLoop_false_iff] at hb
        exact ⟨hto, fun i hi1 hi2 => hb.2 i hi1 (by omega)⟩
      · intro ⟨_, h⟩
        have hb : (sendLoop deliver base_delay jitter 1 max_retries).2.2 = false := by
          rw [sendLoop_false_iff]
          exact ⟨hmr, fun i hi1 hi2 => h i hi1 (by omega)⟩
        simp [hb]
    · intro hfail _
      rw [sendLoop_all_fail deliver base_delay jitter hfail max_retries 1 hmr]
      refine ⟨rfl, ?_, by simp⟩
      refine List.map_congr_left fun i _ => ?_
      have e1 : 1 + i - 1 = i := by omega
      have e2 : 1 + i = i + 1 := by omega
      rw [e1, e2]
    · intro k hk1 hk2 hkd hkb _
      have := sendLoop_first_success deliver base_delay jitter k hkd hkb max_retries 1
        hk1 (by omega)
      refine ⟨by rw [this.1]; omega, by simp [this.2]⟩

/-- Witness for C6: with three permitted attempts and delivery first
succeeding on attempt 2, the amended contract applies. -/
theorem send_email_retry_contract_witness :
    1 ≤ 3 ∧
    SendRetryContract [['a', '@', 'b', '.', 'c', 'o']] [] (fun i => decide (2 ≤ i)) 3 1
      (fun _ => 0) :=
  ⟨by norm_num,
    send_email_retry_contract [['a', '@', 'b', '.', 'c', 'o']] [] (fun i => decide (2 ≤ i))
      3 1 (fun _ => 0) (by norm_num)⟩

/-- Counterexample to C6 as stated: with `max_retries = 0` and an
always-failing delivery, the loop body never runs, so `send` makes zero
attempts and returns success instead of propagating a failure. -/
theorem send_email_retry_zero_counterexample :
    (send_email_with_attachment [['a', '@', 'b', '.', 'c', 'o']] [] (fun _ => false) 0 1
        (fun _ => 0)).result = .ok ∧
    (send_email_with_attachment [['a', '@', 'b', '.', 'c', 'o']] [] (fun _ => false) 0 1
        (fun _ => 0)).attempts = 0 := by
  constructor <;> rfl

lemma parseStep_inv (acc : List Str × List Str) (it : Str)
    (h1 : ∀ e ∈ acc.1, emailOk e = true)
    (h2 : acc.1.Pairwise fun a b => strLower a ≠ strLower b)
    (h3 : ∀ e ∈ acc.1, acc.2.contains (strLower e) = true) :
    (∀ e ∈ (parseStep acc it).1, emailOk e = true) ∧
    ((parseStep acc it).1.Pairwise fun a b => strLower a ≠ strLower b) ∧
    (∀ e ∈ (parseStep acc it).1, (parseStep acc it).2.contains (strLower e) = true) := by
  unfold parseStep
  by_cases hc : !it.isEmpty && emailOk it && !acc.2.contains (strLower it)
  · rw [if_pos hc]
    simp only [Bool.and_eq_true, Bool.not_eq_true'] at hc
    obtain ⟨⟨_, hok⟩, hseen⟩ := hc
    refine ⟨?_, ?_, ?_⟩
    · intro e he
      rcases List.mem_append.mp he with he | he
      · exact h1 e he
      · rw [List.mem_singleton.mp he]
        exact hok
    · rw [List.pairwise_append]
      refine ⟨h2, List.pairwise_singleton _ _, ?_⟩
      intro a ha b hb
      rw [List.mem_singleton.mp hb]
      intro heq
      have := h3 a ha
      rw [heq, hseen] at this
      exact Bool.false_ne_true this
    · intro e he
      simp only [List.contains_cons]
      rcases List.mem_append.mp he with he | he
      · rw [h3 e he]
        simp
      · rw [List.mem_singleton.mp he]
        simp
  · rw [if_neg hc]
    exact ⟨h1, h2, h3⟩

lemma parseFold_inv (items : List Str) (acc : List Str × List Str)
    (h1 : ∀ e ∈ acc.1, emailOk e = true)
    (h2 : acc.1.Pairwise fun a b => strLower a ≠ strLower b)
    (h3 : ∀ e ∈ acc.1, acc.2.contains (strLower e) = true) :
    (∀ e ∈ (items.foldl parseStep acc).1, emailOk e = true) ∧
    ((items.foldl parseStep acc).1.Pairwise fun a b => strLower a ≠ strLower b) := by
  induction items generalizing acc with
  | nil => exact ⟨h1, h2⟩
  | cons it rest ih =>
    rw [List.foldl_cons]
    obtain ⟨g1, g2, g3⟩ := parseStep_inv acc it h1 h2 h3
    exact ih (parseStep acc it) g1 g2 g3

lemma parse_email_list_props (raw : Option Str) :
    (∀ e ∈ parse_email_list raw, emailOk e = true) ∧
    ((parse_email_list raw).Pairwise fun a b => strLower a ≠ strLower b) := by
  match raw with
  | none => simp [parse_email_list]
  | some r =>
    rw [parse_email_list]
    by_cases hr : r.isEmpty
    · rw [if_pos hr]
      simp
    · rw [if_neg hr]
      exact parseFold_inv _ ([], []) (by simp) (by simp) (by simp)

/-- C7 (amended): both effective lists used by the notifier keep exactly the
addresses matching `EMAIL_REGEX` — so every delivered-to address matches the
pattern — while case-insensitive de-duplication is performed only by
`_parse_email_list` (the contact-lookup parser), whose output matches the
pattern and carries no case-insensitive duplicates;
`send_email_with_attachment` itself does not de-duplicate. -/
theorem recipient_list_filtering (receiver_emails cc_emails : List Str)
    (deliver : Nat → Bool) (max_retries : Nat) (base_delay : ℚ) (jitter : Nat → ℚ)
    (raw : Option Str) :
    (send_email_with_attachment receiver_emails cc_emails deliver max_retries base_delay
        jitter).to_list = receiver_emails.filter emailOk ∧
    (send_email_with_attachment receiver_emails cc_emails deliver max_retries base_delay
        jitter).cc_list = cc_emails.filter emailOk ∧
    (∀ e ∈ (send_email_with_attachment receiver_emails cc_emails deliver max_retries
        base_delay jitter).to_list, emailOk e = true) ∧
    (∀ e ∈ (send_email_with_attachment receiver_emails cc_emails deliver max_retries
        base_delay jitter).cc_list, emailOk e = true) ∧
    (∀ e ∈ parse_email_list raw, emailOk e = true) ∧
    ((parse_email_list raw).Pairwise fun a b => strLower a ≠ strLower b) := by
  have hto : (send_email_with_attachment receiver_emails cc_emails deliver max_retries
      base_delay jitter).to_list = receiver_emails.filter emailOk := by
    simp only [send_email_with_attachment]
    split <;> rfl
  have hcc : (send_email_with_attachment receiver_emails cc_emails deliver max_retries
      base_delay jitter).cc_list = cc_emails.filter emailOk := by
    simp only [send_email_with_attachment]
    split <;> rfl
  refine ⟨hto, hcc, ?_, ?_, (parse_email_list_props raw).1, (parse_email_list_props raw).2⟩
  · rw [hto]
    intro e he
    exact (List.mem_filter.mp he).2
  · rw [hcc]
    intro e he
    exact (List.mem_filter.mp he).2

/-- Witness for C7 (amended) at a concrete raw contact field: the parsed list
drops the malformed address and the case-insensitive duplicate. -/
theorem recipient_list_filtering_witness :
    (send_email_with_attachment [['a', '@', 'b', '.', 'c', 'o']] [] (fun _ => true) 3 1
        (fun _ => 0)).to_list = [['a', '@', 'b', '.', 'c', 'o']] ∧
    parse_email_list
        (some (['A', '@', 'b', '.', 'c', 'o', ';', ' ', 'a', '@', 'b', '.', 'c', 'o',
          ';', 'x', 'y'])) = [['A', '@', 'b', '.', 'c', 'o']] ∧
    ((parse_email_list
        (some (['A', '@', 'b', '.', 'c', 'o', ';', ' ', 'a', '@', 'b', '.', 'c', 'o',
          ';', 'x', 'y']))).Pairwise fun a b => strLower a ≠ strLower b) :=
  ⟨by rw [(recipient_list_filtering [['a', '@', 'b', '.', 'c', 'o']] [] (fun _ => true)
      3 1 (fun _ => 0) none).1]; rfl,
   by rfl,
   (recipient_list_filtering [] [] (fun _ => true) 3 1 (fun _ => 0)
      (some (['A', '@', 'b', '.', 'c', 'o', ';', ' ', 'a', '@', 'b', '.', 'c', 'o',
        ';', 'x', 'y']))).2.2.2.2.2⟩

/-- Counterexample to C7 as stated: `send_email_with_attachment` given a "to"
list holding the same address in two letter cases keeps both — the effective
list contains a case-insensitive duplicate. -/
theorem send_to_list_case_duplicate_counterexample :
    ¬ ((send_email_with_attachment
          [['A', '@', 'b', '.', 'c', 'o'], ['a', '@', 'b', '.', 'c', 'o']] []
          (fun _ => true) 3 1 (fun _ => 0)).to_list.Pairwise
        fun a b => strLower a ≠ strLower b) := by
  decide

/-- `DEFAULT_TO` of `tools/print.py`: the hard-coded fallback "to" list is
empty. -/
def DEFAULT_TO : List Str := []

/-- `DEFAULT_CC_ALWAYS`: a list holding one empty string. -/
def DEFAULT_CC_ALWAYS : List Str := [[]]

/-- `INTERNAL_TEST_CC`: empty. -/
def INTERNAL_TEST_CC : List Str := []

/-- `get_contacts_for_furnitor`: empty lists for a blank id, a missing or
inactive row, or a lookup error; otherwise the parsed To/Cc lists of the
row. -/
def get_contacts_for_furnitor (furnitori_id : Str) (row : Option (Str × Str)) :
    List Str × List Str :=
  if furnitori_id.isEmpty then ([], [])
  else
    match row with
    | none => ([], [])
    | some (t, c) => (parse_email_list (some t), parse_email_list (some c))

/-- Outcome environment of one `process_and_print_invoice` run: whether each
external effect succeeds, the supplier contact row, and the SMTP delivery
outcome per attempt. -/
structure PipelineEnv where
  headerFound : Bool
  encryptOk : Bool
  renderOk : Bool
  zipOk : Bool
  furnitoriId : Str
  contactRow : Option (Str × Str)
  deliver : Nat → Bool
  jitter : Nat → ℚ
  printerIp : Option Str
  printerSendOk : Bool
  cleanupOk : Bool

/-- The exception that aborts `process_and_print_invoice`. -/
inductive PipeErr
  | detailsNotFound
  | encryptFail
  | renderFail
  | zipFail
  | emailFail
deriving DecidableEq, Repr

/-- Log entries of the best-effort tail steps of the pipeline. -/
inductive BestEffort
  | printed
  | printerMissing
  | printerSendFailed
  | cleanedUp
  | cleanupFailed
deriving DecidableEq, Repr

/-- The e-mail routing step of `process_and_print_invoice`: supplier contacts
when the parsed "to" list is non-empty, otherwise the hard-coded defaults
(`DEFAULT_TO` / `DEFAULT_CC_ALWAYS` / `INTERNAL_TEST_CC`); the cc sets are
merged without case folding. -/
def finalRecipients (env : PipelineEnv) : List Str × List Str :=
  let p := get_contacts_for_furnitor env.furnitoriId env.contactRow
  if !p.1.isEmpty then (p.1, (p.2 ++ DEFAULT_CC_ALWAYS ++ INTERNAL_TEST_CC).dedup)
  else (DEFAULT_TO, (DEFAULT_CC_ALWAYS ++ INTERNAL_TEST_CC).dedup)

/-- `process_and_print_invoice`, abstracted over the outcome environment:
stages up to and including the e-mail send raise on failure (`some err`);
printer dispatch and cleanup swallow their own failures, which appear only in
the returned best-effort log. -/
def process_and_print_invoice (env : PipelineEnv) : Option PipeErr × List BestEffort :=
  if !env.headerFound then (some .detailsNotFound, [])
  else if !env.encryptOk then (some .encryptFail, [])
  else if !env.renderOk then (some .renderFail, [])
  else if !env.zipOk then (some .zipFail, [])
  else
    let r := finalRecipients env
    let t := send_email_with_attachment r.1 r.2 env.deliver 3 1 env.jitter
    if t.result ≠ .ok then (some .emailFail, [])
    else
      let printLog : List BestEffort :=
        match env.printerIp with
        | none => [.printerMissing]
        | some _ => if env.printerSendOk then [.printed] else [.printerSendFailed]
      let cleanLog : List BestEffort :=
        if env.cleanupOk then [.cleanedUp] else [.cleanupFailed]
      (none, printLog ++ cleanLog)

/-- The per-future decision of the `__main__` polling loop:
`future.result()` returning normally invokes `finalize_invoice`, an exception
invokes `revert_invoice`. -/
def handle_claimed_invoice (env : PipelineEnv) (inv_id : Nat) (q : List Job) : List Job :=
  match (process_and_print_invoice env).1 with
  | none => finalize_invoice inv_id q
  | some _ => revert_invoice inv_id q

/-- All critical stages up to and including e-mail delivery succeed. -/
def criticalStagesOk (env : PipelineEnv) : Prop :=
  env.headerFound = true ∧ env.encryptOk = true ∧ env.renderOk = true ∧
    env.zipOk = true ∧
    (send_email_with_attachment (finalRecipients env).1 (finalRecipients env).2 env.deliver
      3 1 env.jitter).result = .ok

instance (env : PipelineEnv) : Decidable (criticalStagesOk env) := by
  unfold criticalStagesOk
  infer_instance

lemma process_fst_eq (env : PipelineEnv) :
    (process_and_print_invoice env).1 =
      (if ¬env.headerFound then some PipeErr.detailsNotFound
       else if ¬env.encryptOk then some PipeErr.encryptFail
       else if ¬env.renderOk then some PipeErr.renderFail
       else if ¬env.zipOk then some PipeErr.zipFail
       else if (send_email_with_attachment (finalRecipients env).1 (finalRecipients env).2
           env.deliver 3 1 env.jitter).result ≠ .ok then some PipeErr.emailFail
       else none) := by
  unfold process_and_print_invoice
  by_cases h1 : env.headerFound <;> by_cases h2 : env.encryptOk <;>
    by_cases h3 : env.renderOk <;> by_cases h4 : env.zipOk <;>
    simp [h1, h2, h3, h4]
  by_cases h5 : (send_email_with_attachment (finalRecipients env).1 (finalRecipients env).2
      env.deliver 3 1 env.jitter).result = .ok <;> simp [h5]

lemma process_none_iff (env : PipelineEnv) :
    (process_and_print_invoice env).1 = none ↔ criticalStagesOk env := by
  rw [process_fst_eq]
  unfold criticalStagesOk
  by_cases h1 : env.headerFound <;> by_cases h2 : env.encryptOk <;>
    by_cases h3 : env.renderOk <;> by_cases h4 : env.zipOk <;>
    simp [h1, h2, h3, h4]

/-- C2: the orchestrator finalizes a claimed job exactly when every stage up
to and including e-mail delivery succeeded, and reverts it otherwise; the
printer dispatch and cleanup outcomes never change the raised-or-not result
of the pipeline, hence never the finalize/revert decision. -/
theorem orchestrator_finalize_or_revert (env : PipelineEnv) (inv_id : Nat) (q : List Job)
    (ip : Option Str) (pok cok : Bool) :
    handle_claimed_invoice env inv_id q =
      (if criticalStagesOk env then finalize_invoice inv_id q
        else revert_invoice inv_id q) ∧
    (process_and_print_invoice
        { env with printerIp := ip, printerSendOk := pok, cleanupOk := cok }).1 =
      (process_and_print_invoice env).1 := by
  constructor
  · unfold handle_claimed_invoice
    by_cases h : criticalStagesOk env
    · rw [if_pos h, (process_none_iff env).mpr h]
    · rw [if_neg h]
      rcases he : (process_and_print_invoice env).1 with _ | e
      · exact absurd ((process_none_iff env).mp he) h
      · rfl
  · rw [process_fst_eq, process_fst_eq]
    rfl

/-- C10: when the supplier contact lookup yields no valid primary address
(blank id, missing or inactive row, or nothing parseable), the fallback list
`DEFAULT_TO` is empty, so the notifier raises its no-recipient error before
any delivery attempt, the pipeline always raises, and the orchestrator always
reverts the job — it can never be finalized. -/
theorem missing_contacts_never_finalized (env : PipelineEnv) (inv_id : Nat) (q : List Job)
    (hno : (get_contacts_for_furnitor env.furnitoriId env.contactRow).1 = []) :
    (send_email_with_attachment (finalRecipients env).1 (finalRecipients env).2 env.deliver
        3 1 env.jitter).result = .noRecipient ∧
    (process_and_print_invoice env).1 ≠ none ∧
    handle_claimed_invoice env inv_id q = revert_invoice inv_id q := by
  have hfr : (finalRecipients env).1 = [] := by
    simp [finalRecipients, hno, DEFAULT_TO]
  have hsend : (send_email_with_attachment (finalRecipients env).1 (finalRecipients env).2
      env.deliver 3 1 env.jitter).result = .noRecipient := by
    rw [hfr]
    simp [send_email_with_attachment]
  have hne : (process_and_print_invoice env).1 ≠ none := by
    rw [process_fst_eq]
    by_cases h1 : env.headerFound <;> by_cases h2 : env.encryptOk <;>
      by_cases h3 : env.renderOk <;> by_cases h4 : env.zipOk <;>
      simp [h1, h2, h3, h4, hsend]
  refine ⟨hsend, hne, ?_⟩
  rcases he : (process_and_print_invoice env).1 with _ | e
  · exact absurd he hne
  · unfold handle_claimed_invoice
    rw [he]

/-- Concrete pipeline environment with every external step healthy but no
contact row for the supplier. -/
def envDemo : PipelineEnv :=
  { headerFound := true, encryptOk := true, renderOk := true, zipOk := true,
    furnitoriId := ['7'], contactRow := none, deliver := fun _ => true,
    jitter := fun _ => 0, printerIp := none, printerSendOk := true, cleanupOk := true }

/-- Witness for C10: a healthy run whose supplier has no contact record is
reverted, not finalized. -/
theorem missing_contacts_never_finalized_witness :
    (get_contacts_for_furnitor envDemo.furnitoriId envDemo.contactRow).1 = [] ∧
    ((send_email_with_attachment (finalRecipients envDemo).1 (finalRecipients envDemo).2
        envDemo.deliver 3 1 envDemo.jitter).result = .noRecipient ∧
     (process_and_print_invoice envDemo).1 ≠ none ∧
     handle_claimed_invoice envDemo 5 qDemo = revert_invoice 5 qDemo) :=
  ⟨by decide, missing_contacts_never_finalized envDemo 5 qDemo (by decide)⟩

/-- The URL-safe base64 alphabet of `base64.urlsafe_b64encode`: the 26
upper-case letters, the 26 lower-case letters, the 10 digits, then `-` and
`_`. -/
def b64Alphabet : List Char :=
  ((List.range 26).map fun i => Char.ofNat (65 + i)) ++
    ((List.range 26).map fun i => Char.ofNat (97 + i)) ++
    ((List.range 10).map fun i => Char.ofNat (48 + i)) ++ ['-', '_']

/-- Alphabet character of a 6-bit value. -/
def b64Char (n : Nat) : Char := b64Alphabet.getD n '='

/-- 6-bit value of an alphabet character. -/
def b64Val (c : Char) : Nat := b64Alphabet.indexOf c

lemma b64Val_b64Char : ∀ n < 64, b64Val (b64Char n) = n := by decide

lemma b64Char_ne_pad : ∀ n < 64, b64Char n ≠ '=' := by decide

/-- `base64.urlsafe_b64encode` over bytes (naturals below 256): groups of
three bytes become four alphabet characters; a trailing group of one or two
bytes is padded with `=`. -/
def b64encode : List Nat → List Char
  | [] => []
  | [b1] => [b64Char (b1 / 4), b64Char (b1 % 4 * 16), '=', '=']
  | [b1, b2] =>
    [b64Char (b1 / 4), b64Char (b1 % 4 * 16 + b2 / 16), b64Char (b2 % 16 * 4), '=']
  | b1 :: b2 :: b3 :: rest =>
    b64Char (b1 / 4) :: b64Char (b1 % 4 * 16 + b2 / 16) ::
      b64Char (b2 % 16 * 4 + b3 / 64) :: b64Char (b3 % 64) :: b64encode rest

/-- `base64.urlsafe_b64decode` on well-formed payloads. -/
def b64decode : List Char → List Nat
  | c1 :: c2 :: c3 :: c4 :: rest =>
    if c3 = '=' then [b64Val c1 * 4 + b64Val c2 / 16]
    else if c4 = '=' then
      [b64Val c1 * 4 + b64Val c2 / 16, b64Val c2 % 16 * 16 + b64Val c3 / 4]
    else
      (b64Val c1 * 4 + b64Val c2 / 16) :: (b64Val c2 % 16 * 16 + b64Val c3 / 4) ::
        (b64Val c3 % 4 * 64 + b64Val c4) :: b64decode rest
  | _ => []

lemma b64_roundtrip : ∀ bs : List Nat, (∀ b ∈ bs, b < 256) → b64decode (b64encode bs) = bs := by
  intro bs
  induction bs using b64encode.induct with
  | case1 =>
    intro _
    rfl
  | case2 b1 =>
    intro h
    have hb1 : b1 < 256 := h b1 (by simp)
    rw [b64encode, b64decode, if_pos rfl]
    rw [b64Val_b64Char _ (by omega), b64Val_b64Char _ (by omega)]
    congr 1
    omega
  | case3 b1 b2 =>
    intro h
    have hb1 : b1 < 256 := h b1 (by simp)
    have hb2 : b2 < 256 := h b2 (by simp)
    rw [b64encode, b64decode, if_neg (b64Char_ne_pad _ (by omega)), if_pos rfl]
    rw [b64Val_b64Char _ (by omega), b64Val_b64Char _ (by omega),
      b64Val_b64Char _ (by omega)]
    congr 1
    · omega
    · congr 1
      omega
  | case4 b1 b2 b3 rest ih =>
    intro h
    have hb1 : b1 < 256 := h b1 (by simp)
    have hb2 : b2 < 256 := h b2 (by simp)
    have hb3 : b3 < 256 := h b3 (by simp)
    rw [b64encode, b64decode, if_neg (b64Char_ne_pad _ (by omega)),
      if_neg (b64Char_ne_pad _ (by omega))]
    rw [b64Val_b64Char _ (by omega), b64Val_b64Char _ (by omega),
      b64Val_b64Char _ (by omega), b64Val_b64Char _ (by omega)]
    rw [ih fun b hb => h b (by simp [hb])]
    congr 1
    · omega
    · congr 1
      · omega
      · congr 1
        omega

/-- The payload construction of `create_encrypted_qr`, abstracted over the
Scrypt key derivation `kdf` and the Fernet authenticated encryption `enc`:
URL-safe base64 of the fresh 16-byte salt concatenated with the ciphertext of
the compressed serialized data. -/
def create_encrypted_qr_payload (enc : List Nat → List Nat → List Nat)
    (kdf : List Nat → Str → List Nat) (salt : List Nat) (password : Str)
    (compressed : List Nat) : List Char :=
  b64encode (salt ++ enc (kdf salt password) compressed)

/-- Out-of-band decryption of the payload format: base64url-decode, split off
the embedded 16-byte salt, re-derive the key from that salt and the supplied
password, and authenticated-decrypt the remainder. -/
def decrypt_qr_payload (dec : List Nat → List Nat → Option (List Nat))
    (kdf : List Nat → Str → List Nat) (payload : List Char) (password : Str) :
    Option (List Nat) :=
  dec (kdf ((b64decode payload).take 16) password) ((b64decode payload).drop 16)

/-- C8: for any authenticated cipher (decryption with the right key inverts
encryption, decryption with any other key fails) and any password-collision-free
key derivation, the artifact format round-trips — decoding the payload,
splitting off the 16-byte salt, re-deriving the key and decrypting reproduces
the compressed serialized bytes exactly — and decryption under any wrong
password fails. -/
theorem create_encrypted_qr_roundtrip (enc : List Nat → List Nat → List Nat)
    (dec : List Nat → List Nat → Option (List Nat)) (kdf : List Nat → Str → List Nat)
    (salt : List Nat) (password : Str) (compressed : List Nat)
    (hsalt_len : salt.length = 16)
    (hsalt_bytes : ∀ b ∈ salt, b < 256)
    (hct_bytes : ∀ b ∈ enc (kdf salt password) compressed, b < 256)
    (hdec : ∀ m, dec (kdf salt password) (enc (kdf salt password) m) = some m)
    (hauth : ∀ k, k ≠ kdf salt password →
      dec k (enc (kdf salt password) compressed) = none)
    (hkdf : ∀ pw, pw ≠ password → kdf salt pw ≠ kdf salt password) :
    decrypt_qr_payload dec kdf
        (create_encrypted_qr_payload enc kdf salt password compressed) password =
      some compressed ∧
    ∀ pw, pw ≠ password →
      decrypt_qr_payload dec kdf
          (create_encrypted_qr_payload enc kdf salt password compressed) pw = none := by
  have hb : b64decode (b64encode (salt ++ enc (kdf salt password) compressed)) =
      salt ++ enc (kdf salt password) compressed := by
    apply b64_roundtrip
    intro b hbmem
    rcases List.mem_append.mp hbmem with hm | hm
    · exact hsalt_bytes b hm
    · exact hct_bytes b hm
  have htake : (b64decode (b64encode (salt ++ enc (kdf salt password) compressed))).take 16 =
      salt := by
    rw [hb, List.take_left' hsalt_len]
  have hdrop : (b64decode (b64encode (salt ++ enc (kdf salt password) compressed))).drop 16 =
      enc (kdf salt password) compressed := by
    rw [hb, List.drop_left' hsalt_len]
  constructor
  · unfold decrypt_qr_payload create_encrypted_qr_payload
    rw [htake, hdrop]
    exact hdec compressed
  · intro pw hpw
    unfold decrypt_qr_payload create_encrypted_qr_payload
    rw [htake, hdrop]
    exact hauth (kdf salt pw) (hkdf pw hpw)

/-- Length-tagged pairing cipher used to instantiate the abstract
authenticated encryption in the C8 witness. -/
def tagEnc (k m : List Nat) : List Nat := k.length :: (k ++ m)

/-- Decryption matching `tagEnc`: succeeds only under the exact key. -/
def tagDec (k c : List Nat) : Option (List Nat) :=
  if c.take (k.length + 1) = k.length :: k then some (c.drop (k.length + 1)) else none

/-- Key derivation used in the C8 witness: the code points of the password. -/
def codesKdf (_salt : List Nat) (pw : Str) : List Nat := pw.map Char.toNat

lemma tagDec_tagEnc (k m : List Nat) : tagDec k (tagEnc k m) = some m := by
  unfold tagDec tagEnc
  rw [List.take_succ_cons, List.take_left, if_pos rfl, List.drop_succ_cons, List.drop_left]

lemma tagDec_tagEnc_ne (k k' m : List Nat) (h : k' ≠ k) : tagDec k' (tagEnc k m) = none := by
  unfold tagDec tagEnc
  rw [if_neg]
  intro hc
  rw [List.take_succ_cons, List.cons_eq_cons] at hc
  obtain ⟨h1, h2⟩ := hc
  rw [← h1, List.take_left] at h2
  exact h h2.symm

lemma char_toNat_injective : Function.Injective Char.toNat := by
  intro a b hab
  have hc := congrArg Char.ofNat hab
  rwa [Char.ofNat_toNat, Char.ofNat_toNat] at hc

lemma codesKdf_injective (salt : List Nat) : Function.Injective (codesKdf salt) := by
  intro a b hab
  exact List.map_injective_iff.mpr char_toNat_injective hab

/-- Witness for C8: the abstract round-trip theorem applied to the tag cipher
with a concrete 16-byte salt, password `p` and compressed payload `[1,2,3]`. -/
theorem create_encrypted_qr_roundtrip_witness :
    ((List.range 16).length = 16) ∧
    (∀ b ∈ List.range 16, b < 256) ∧
    (∀ b ∈ tagEnc (codesKdf (List.range 16) ['p']) [1, 2, 3], b < 256) ∧
    (decrypt_qr_payload tagDec codesKdf
        (create_encrypted_qr_payload tagEnc codesKdf (List.range 16) ['p'] [1, 2, 3])
        ['p'] = some [1, 2, 3] ∧
      ∀ pw, pw ≠ ['p'] →
        decrypt_qr_payload tagDec codesKdf
            (create_encrypted_qr_payload tagEnc codesKdf (List.range 16) ['p'] [1, 2, 3])
            pw = none) :=
  ⟨by decide, by decide, by decide,
    create_encrypted_qr_roundtrip tagEnc tagDec codesKdf (List.range 16) ['p'] [1, 2, 3]
      (by decide) (by decide) (by decide)
      (fun m => tagDec_tagEnc _ m)
      (fun k hk => tagDec_tagEnc_ne _ k _ hk)
      (fun pw hpw hmap => hpw (codesKdf_injective _ hmap))⟩

/-- Events observable on the wire during `send_raw_to_printer`. -/
inductive PrinterEvent
  | connect (ip : Str) (port : Nat)
  | setNoDelay
  | send (chunk : List Nat)
  | close
deriving DecidableEq, Repr

/-- The `file.read(chunk_size)` loop body, fuelled for structural recursion:
split the file bytes into successive chunks of at most `chunk_size` bytes.
With `chunk_size = 0`, `read(0)` returns the empty bytes object immediately
and the loop sends nothing. -/
def readChunksAux (chunk_size : Nat) : Nat → List Nat → List (List Nat)
  | 0, _ => []
  | fuel + 1, file =>
    if chunk_size = 0 ∨ file = [] then []
    else file.take chunk_size :: readChunksAux chunk_size fuel (file.drop chunk_size)

/-- Chunking of one full read-and-send pass over the file. -/
def readChunks (chunk_size : Nat) (file : List Nat) : List (List Nat) :=
  readChunksAux chunk_size file.length file

/-- `send_raw_to_printer(printer_ip, printer_port, file_path, copies,
chunk_size)`: one TCP connection is opened, `TCP_NODELAY` is set on it, and
the file is streamed `max 1 copies` times in chunks over that same
connection. -/
def send_raw_to_printer (printer_ip : Str) (printer_port : Nat) (file : List Nat)
    (copies : Nat) (chunk_size : Nat) : List PrinterEvent :=
  [PrinterEvent.connect printer_ip printer_port, PrinterEvent.setNoDelay] ++
    (List.replicate (max 1 copies) ((readChunks chunk_size file).map PrinterEvent.send)).flatten
    ++ [PrinterEvent.close]

/-- Number of TCP connections opened in a trace. -/
def countConnects (evs : List PrinterEvent) : Nat :=
  evs.countP fun e => match e with
    | PrinterEvent.connect _ _ => true
    | _ => false

/-- Bytes written to the socket over a trace, in order. -/
def sentBytes (evs : List PrinterEvent) : List Nat :=
  (evs.map fun e => match e with
    | PrinterEvent.send c => c
    | _ => []).flatten

lemma readChunksAux_join (n : Nat) (hn : 0 < n) :
    ∀ fuel file, file.length ≤ fuel → (readChunksAux n fuel file).flatten = file := by
  intro fuel
  induction fuel with
  | zero =>
    intro file hf
    have hemp : file = [] := List.eq_nil_of_length_eq_zero (by omega)
    simp [hemp, readChunksAux]
  | succ fuel ih =>
    intro file hf
    rw [readChunksAux]
    by_cases h : n = 0 ∨ file = []
    · rcases h with h | h
      · omega
      · rw [if_pos (Or.inr h), h]
        rfl
    · rw [if_neg h]
      have hne : file ≠ [] := fun hc => h (Or.inr hc)
      have hlen : 0 < file.length := List.length_pos.mpr hne
      rw [List.flatten_cons, ih (file.drop n) (by simp [List.length_drop]; omega),
        List.take_append_drop]

lemma readChunksAux_mem_length (n : Nat) :
    ∀ fuel file, ∀ c ∈ readChunksAux n fuel file, c.length ≤ n := by
  intro fuel
  induction fuel with
  | zero =>
    intro file c hc
    simp [readChunksAux] at hc
  | succ fuel ih =>
    intro file c hc
    rw [readChunksAux] at hc
    by_cases h : n = 0 ∨ file = []
    · rw [if_pos h] at hc
      simp at hc
    · rw [if_neg h] at hc
      rcases List.mem_cons.mp hc with hc | hc
      · rw [hc]
        simp [List.length_take]
      · exact ih (file.drop n) c hc

lemma sentBytes_append (a b : List PrinterEvent) :
    sentBytes (a ++ b) = sentBytes a ++ sentBytes b := by
  simp [sentBytes]

lemma sentBytes_sends (cs : List (List Nat)) :
    sentBytes (cs.map PrinterEvent.send) = cs.flatten := by
  induction cs with
  | nil => rfl
  | cons c t ih =>
    simp only [List.map_cons, sentBytes, List.flatten_cons] at ih ⊢
    rw [ih]

lemma countConnects_append (a b : List PrinterEvent) :
    countConnects (a ++ b) = countConnects a + countConnects b := by
  simp [countConnects, List.countP_append]

lemma countConnects_sends (cs : List (List Nat)) :
    countConnects (cs.map PrinterEvent.send) = 0 := by
  rw [countConnects, List.countP_eq_zero]
  intro e he
  obtain ⟨c, _, rfl⟩ := List.mem_map.mp he
  simp

lemma countConnects_join_replicate (k : Nat) (cs : List (List Nat)) :
    countConnects ((List.replicate k (cs.map PrinterEvent.send)).flatten) = 0 := by
  induction k with
  | zero => rfl
  | succ k ih =>
    rw [List.replicate_succ, List.flatten_cons, countConnects_append, ih,
      countConnects_sends]

lemma sentBytes_join_replicate (k : Nat) (cs : List (List Nat)) :
    sentBytes ((List.replicate k (cs.map PrinterEvent.send)).flatten) =
      (List.replicate k cs.flatten).flatten := by
  induction k with
  | zero => rfl
  | succ k ih =>
    rw [List.replicate_succ, List.flatten_cons, sentBytes_append, ih,
      List.replicate_succ, List.flatten_cons, sentBytes_sends]

/-- C9 (amended): `send_raw_to_printer` opens exactly one TCP connection in
total (not one per copy), disables send-coalescing on it, and streams the
whole file once per effective copy (`max 1 copies`) in chunks of at most
`chunk_size` bytes over that single connection. -/
theorem send_raw_to_printer_stream (printer_ip : Str) (printer_port : Nat)
    (file : List Nat) (copies chunk_size : Nat) (hcs : 0 < chunk_size) :
    countConnects (send_raw_to_printer printer_ip printer_port file copies chunk_size)
      = 1 ∧
    PrinterEvent.setNoDelay ∈
      send_raw_to_printer printer_ip printer_port file copies chunk_size ∧
    (∀ c, PrinterEvent.send c ∈
        send_raw_to_printer printer_ip printer_port file copies chunk_size →
      c.length ≤ chunk_size) ∧
    sentBytes (send_raw_to_printer printer_ip printer_port file copies chunk_size) =
      (List.replicate (max 1 copies) file).flatten := by
  refine ⟨?_, ?_, ?_, ?_⟩
  · rw [send_raw_to_printer, countConnects_append, countConnects_append,
      countConnects_join_replicate]
    rfl
  · rw [send_raw_to_printer]
    simp
  · intro c hc
    rw [send_raw_to_printer] at hc
    rcases List.mem_append.mp hc with hc | hc
    · rcases List.mem_append.mp hc with hc | hc
      · simp at hc
      · obtain ⟨l, hl, hcl⟩ := List.mem_flatten.mp hc
        have hlrep := List.eq_of_mem_replicate hl
        rw [hlrep] at hcl
        obtain ⟨c', hc', hcc⟩ := List.mem_map.mp hcl
        have : c' = c := by
          injection hcc
        rw [← this]
        exact readChunksAux_mem_length chunk_size file.length file c' hc'
    · simp at hc
  · rw [send_raw_to_printer, sentBytes_append, sentBytes_append,
      sentBytes_join_replicate]
    have hjoin : (readChunks chunk_size file).flatten = file :=
      readChunksAux_join chunk_size hcs file.length file (le_refl _)
    rw [readChunks] at hjoin ⊢
    rw [hjoin]
    simp [sentBytes]

/-- Witness for C9 (amended) at a concrete call: 3 bytes, 2 copies, chunk
size 2. -/
theorem send_raw_to_printer_stream_witness :
    0 < 2 ∧
    (countConnects (send_raw_to_printer ['p'] 9100 [1, 2, 3] 2 2) = 1 ∧
     PrinterEvent.setNoDelay ∈ send_raw_to_printer ['p'] 9100 [1, 2, 3] 2 2 ∧
     (∀ c, PrinterEvent.send c ∈ send_raw_to_printer ['p'] 9100 [1, 2, 3] 2 2 →
      c.length ≤ 2) ∧
     sentBytes (send_raw_to_printer ['p'] 9100 [1, 2, 3] 2 2) =
      (List.replicate (max 1 2) [1, 2, 3]).flatten) :=
  ⟨by decide, send_raw_to_printer_stream ['p'] 9100 [1, 2, 3] 2 2 (by decide)⟩

/-- Counterexample to C9 as stated: a dispatch of two copies opens a single
TCP connection, not one per requested copy. -/
theorem send_raw_per_copy_counterexample :
    countConnects (send_raw_to_printer ['p'] 9100 [7] 2 8192) ≠ 2 := by
  decide

end KthimiPrint
